import Mathlib

/-!
Verification of the arena chat client's streaming-message reconciliation
engine (Redux `chatSlice` reducers, the `streamMessage` / `streamComparison`
stream drivers, the WebSocket `session_state` and `onclose` handlers, and
the guest-limit check).

Modelling conventions
* JavaScript strings are modelled as `List Char`.
* JavaScript objects used as string-keyed maps are modelled as association
  lists, with `objGet` / `objSet` / `objDel` mirroring property read,
  property assignment and the `delete` operator (keys are unique in any
  object built by these operations, so first-match semantics agree with
  JavaScript).
* Nondeterministic or host-provided values that the reconciliation logic
  never branches on (message timestamps) are omitted.
-/

set_option maxHeartbeats 1000000

/-- JavaScript object property read (first binding of the key wins). -/
def objGet {β : Type} (m : List (String × β)) (k : String) : Option β :=
  match m with
  | [] => none
  | (k1, v) :: rest => if k1 = k then some v else objGet rest k

/-- JavaScript object property assignment. -/
def objSet {β : Type} (m : List (String × β)) (k : String) (v : β) :
    List (String × β) :=
  match m with
  | [] => [(k, v)]
  | (k1, v1) :: rest =>
    if k1 = k then (k, v) :: rest else (k1, v1) :: objSet rest k v

/-- JavaScript `delete` of an object property. -/
def objDel {β : Type} (m : List (String × β)) (k : String) :
    List (String × β) :=
  match m with
  | [] => []
  | (k1, v1) :: rest =>
    if k1 = k then objDel rest k else (k1, v1) :: objDel rest k

/-- Left-to-right, non-overlapping global replacement of two backslashes by
one backslash: the first pass of `unescapeChunk`
(`chunk.replace` of double backslash by backslash, applied globally). -/
def replacePairBsBs : List Char → List Char
  | [] => []
  | [c] => [c]
  | c1 :: c2 :: rest =>
    if c1 = '\\' ∧ c2 = '\\' then '\\' :: replacePairBsBs rest
    else c1 :: replacePairBsBs (c2 :: rest)

/-- Left-to-right, non-overlapping global replacement of backslash-`n` by a
newline: the second pass of `unescapeChunk`. -/
def replaceBsN : List Char → List Char
  | [] => []
  | [c] => [c]
  | c1 :: c2 :: rest =>
    if c1 = '\\' ∧ c2 = 'n' then '\n' :: replaceBsN rest
    else c1 :: replaceBsN (c2 :: rest)

/-- Decoder of one escaped chunk, from `useStreamingMessage` /
`CompareMessageInput`: first collapse double backslashes, then turn
backslash-`n` into a newline, in that order. -/
def unescapeChunk (chunk : List Char) : List Char :=
  replaceBsN (replacePairBsBs chunk)

/-- Modelled from the spec: the sender-side escape (the server is not part
of this repository) replaces each backslash by a double backslash and each
newline by backslash-`n`. -/
def escapeChunk : List Char → List Char
  | [] => []
  | c :: rest =>
    if c = '\\' then '\\' :: '\\' :: escapeChunk rest
    else if c = '\n' then '\\' :: 'n' :: escapeChunk rest
    else c :: escapeChunk rest

/-- Helper for the round-trip proof: `escapeChunk` followed by the first
decoding pass leaves exactly the newlines encoded as backslash-`n`. -/
def substBsN : List Char → List Char
  | [] => []
  | c :: rest =>
    if c = '\n' then '\\' :: 'n' :: substBsN rest else c :: substBsN rest

/-- Whether the text contains a backslash immediately followed by the
letter `n` (the shape the two-pass decoder cannot round-trip). -/
def hasBsN : List Char → Bool
  | [] => false
  | [_] => false
  | c1 :: c2 :: rest =>
    if c1 = '\\' ∧ c2 = 'n' then true else hasBsN (c2 :: rest)

/-- Concatenation of a list of chunks, in delivery order. -/
def joinL (ls : List (List Char)) : List Char :=
  ls.foldr (fun a b => a ++ b) []

/-- Whether the pattern list is an initial segment of the other list
(`String.prototype.startsWith` on the pattern tags of the wire protocol). -/
def startsWithL : List Char → List Char → Bool
  | [], _ => true
  | _ :: _, [] => false
  | p :: ps, c :: cs => if p = c then startsWithL ps cs else false

/-- The `line.trim()` emptiness test of the comparison driver: true when
every character is whitespace (so the trimmed line is empty). -/
def allWhitespaceL (l : List Char) : Bool :=
  l.all Char.isWhitespace

/-- The chunk-payload extraction `line.slice(4, -1)` used by both stream
drivers: drop the first four characters and the last one. -/
def sliceContent (l : List Char) : List Char :=
  (l.drop 4).dropLast

/-- JavaScript `buffer.split` on the newline terminator: keeps empty
segments, and an empty input yields one empty segment. -/
def splitNl : List Char → List (List Char)
  | [] => [[]]
  | c :: rest =>
    match splitNl rest with
    | [] => [[]]
    | l :: ls => if c = '\n' then [] :: l :: ls else (c :: l) :: ls

/-- One transcript entry. Fields mirror the message objects the client
builds; the reducer-built finalized assistant message carries `id`,
`role`, `content` and `participant` only (its timestamp is omitted from
the model), while driver-built user messages also carry
`parent_message_ids` and `status`. -/
structure Message where
  id : String
  role : String
  content : List Char
  participant : Option String
  parent_message_ids : Option (List String)
  status : Option String
  deriving DecidableEq, Repr

/-- One in-flight accumulation buffer of `state.streamingMessages`. -/
structure StreamingBuffer where
  content : List Char
  participant : String
  isComplete : Bool
  deriving DecidableEq, Repr

/-- Payload of the `updateStreamingMessage` action. The reducer
destructures it with a default participant of `"a"`; call sites that omit
the participant pass `"a"` here. -/
structure UpdatePayload where
  sessionId : String
  messageId : String
  chunk : List Char
  isComplete : Bool
  participant : String
  deriving DecidableEq, Repr

/-- One entry of `state.sessions`: its id plus its other (opaque)
metadata fields. -/
structure SessionRec where
  id : String
  meta : List (String × List Char)
  deriving DecidableEq, Repr

/-- The `chat` slice of the Redux store, restricted to the fields the
reconciliation engine reads or writes (`loading` and `error` are never
touched by the modelled reducers and are omitted). -/
structure ChatState where
  sessions : List SessionRec
  activeSession : Option SessionRec
  messages : List (String × List Message)
  streamingMessages : List (String × List (String × StreamingBuffer))
  deriving DecidableEq, Repr

/-- The slice's initial state. -/
def emptyChat : ChatState :=
  ⟨[], none, [], []⟩

/-- The `addMessage` reducer of `chatSlice`: create the session's message
array if missing, then push the message. -/
def addMessage (st : ChatState) (sessionId : String) (message : Message) :
    ChatState :=
  let msgs := (objGet st.messages sessionId).getD []
  { st with messages := objSet st.messages sessionId (msgs ++ [message]) }

/-- The `updateStreamingMessage` reducer of `chatSlice`: ensure the
session's buffer object exists, create the buffer if missing (empty
content, not complete), append the chunk and overwrite `participant` and
`isComplete`; when `isComplete` is set, additionally push a finalized
assistant message built from the accumulated content and delete the
buffer. -/
def updateStreamingMessage (st : ChatState) (p : UpdatePayload) : ChatState :=
  let sbufs := (objGet st.streamingMessages p.sessionId).getD []
  let oldContent :=
    match objGet sbufs p.messageId with
    | some b => b.content
    | none => []
  let buf : StreamingBuffer := ⟨oldContent ++ p.chunk, p.participant, p.isComplete⟩
  if p.isComplete = true then
    let msg : Message := ⟨p.messageId, "assistant", buf.content, some p.participant, none, none⟩
    let msgs := (objGet st.messages p.sessionId).getD []
    { st with
      messages := objSet st.messages p.sessionId (msgs ++ [msg]),
      streamingMessages :=
        objSet st.streamingMessages p.sessionId
          (objDel (objSet sbufs p.messageId buf) p.messageId) }
  else
    { st with
      streamingMessages :=
        objSet st.streamingMessages p.sessionId (objSet sbufs p.messageId buf) }

/-- Object spread of a session-state payload over an existing session
record's metadata: later keys override. -/
def mergeMeta (old new : List (String × List Char)) :
    List (String × List Char) :=
  new.foldl (fun acc kv => objSet acc kv.1 kv.2) old

/-- The `setSessionState` reducer of `chatSlice`: replace the session's
message list (`messages` defaulted to the empty array), and when the
session is present in `state.sessions` and a session payload was sent,
spread that payload over the stored session record. -/
def setSessionState (st : ChatState) (sessionId : String)
    (messages : Option (List Message))
    (sessionData : Option (List (String × List Char))) : ChatState :=
  let st1 := { st with messages := objSet st.messages sessionId (messages.getD []) }
  match sessionData with
  | none => st1
  | some meta =>
    match st1.sessions.findIdx? (fun s => s.id == sessionId) with
    | none => st1
    | some idx =>
      match st1.sessions.get? idx with
      | none => st1
      | some old =>
        { st1 with sessions := st1.sessions.set idx ⟨old.id, mergeMeta old.meta meta⟩ }

/-- The buffer registered for a session and message id, if any. -/
def getBuf (st : ChatState) (sid mid : String) : Option StreamingBuffer :=
  objGet ((objGet st.streamingMessages sid).getD []) mid

/-- The finalized transcript of one session. -/
def sessionMsgs (st : ChatState) (sid : String) : List Message :=
  (objGet st.messages sid).getD []

/-- The finalized messages of one session carrying a given message id. -/
def msgsFor (st : ChatState) (sid mid : String) : List Message :=
  (sessionMsgs st sid).filter (fun m => decide (m.id = mid))

/-- The fields of a parsed completion signal that the drivers read. -/
structure DoneData where
  finishReason : Option (List Char)
  error : Option (List Char)
  deriving DecidableEq, Repr

/-- The suffix following the first occurrence of the pattern, if any. -/
def findAfter (pat : List Char) : List Char → Option (List Char)
  | [] => if pat = [] then some [] else none
  | c :: rest =>
    if startsWithL pat (c :: rest) = true then some ((c :: rest).drop pat.length)
    else findAfter pat rest

/-- The characters before the next double quote, if one occurs. -/
def takeUntilQuote : List Char → Option (List Char)
  | [] => none
  | c :: rest =>
    if c = '"' then some [] else (takeUntilQuote rest).map (fun t => c :: t)

/-- The value of a double-quoted string field of a flat JSON object. -/
def extractStringField (key : List Char) (payload : List Char) :
    Option (List Char) :=
  match findAfter ('"' :: (key ++ ('"' :: ':' :: '"' :: []))) payload with
  | none => none
  | some rest => takeUntilQuote rest

/-- Modelled from the spec: completion signals carry a flat JSON object
with string fields `finishReason` and `error` (wire protocol, spec section
6); `JSON.parse` is a host builtin, not code of this repository, and is
modelled here as a scanner for those two fields that fails (as the
driver's try/catch path does) unless the payload is brace-delimited. -/
def jsonParseDone (payload : List Char) : Option DoneData :=
  if payload.head? = some '\x7b' ∧ payload.getLast? = some '\x7d' then
    some ⟨extractStringField "finishReason".data payload,
          extractStringField "error".data payload⟩
  else none

/-- One participant's entry of the comparison driver's local
`modelStatus`. -/
structure ModelStatus where
  complete : Bool
  error : Option (List Char)
  deriving DecidableEq, Repr

/-- The state threaded through one `streamComparison` call: the Redux
chat slice, the local `modelStatus` for both participants, the toast
notifications raised so far, the carried partial line, and whether the
read loop has exited via its both-complete `break`. -/
structure CompareRun where
  chat : ChatState
  statusA : ModelStatus
  statusB : ModelStatus
  toasts : List (List Char)
  lineBuf : List Char
  broke : Bool
  deriving DecidableEq, Repr

/-- The closed variant of the line dispatch of `streamComparison`'s inner
loop: which branch of its prefix tests a line selects, with the parsed
completion payload for the done branches. -/
inductive CompareEv where
  | skip
  | chunkA (line : List Char)
  | chunkB (line : List Char)
  | doneA (d : Option DoneData)
  | doneB (d : Option DoneData)
  deriving DecidableEq, Repr

/-- The prefix tests of `streamComparison`'s loop body, in source order:
blank lines are skipped, then the tags for a-chunk, b-chunk, a-done and
b-done are tried; anything else is ignored. -/
def classifyLine (line : List Char) : CompareEv :=
  if allWhitespaceL line = true then CompareEv.skip
  else if startsWithL ('a' :: '0' :: ':' :: []) line = true then CompareEv.chunkA line
  else if startsWithL ('b' :: '0' :: ':' :: []) line = true then CompareEv.chunkB line
  else if startsWithL ('a' :: 'd' :: ':' :: []) line = true then
    CompareEv.doneA (jsonParseDone (line.drop 3))
  else if startsWithL ('b' :: 'd' :: ':' :: []) line = true then
    CompareEv.doneB (jsonParseDone (line.drop 3))
  else CompareEv.skip

/-- The toast text raised for a participant generation error:
the template literal interpolates an absent error as `undefined`. -/
def toastModelError (name : List Char) (e : Option (List Char)) : List Char :=
  "Model ".data ++ name ++ " error: ".data ++ e.getD "undefined".data

/-- The branch bodies of `streamComparison`'s loop: chunks are sliced,
unescaped and dispatched to the participant's buffer; a `stop` completion
marks the local status complete and dispatches the finalizing update; an
`error` completion marks the local status complete with the error and
raises a toast, dispatching nothing; a parse failure or unknown reason
does nothing. -/
def applyCompareEv (sid idA idB : String) (s : CompareRun) :
    CompareEv → CompareRun
  | CompareEv.skip => s
  | CompareEv.chunkA line =>
    { s with
        chat := updateStreamingMessage s.chat
          ⟨sid, idA, unescapeChunk (sliceContent line), false, "a"⟩ }
  | CompareEv.chunkB line =>
    { s with
        chat := updateStreamingMessage s.chat
          ⟨sid, idB, unescapeChunk (sliceContent line), false, "b"⟩ }
  | CompareEv.doneA d =>
    match d with
    | none => s
    | some dd =>
      if dd.finishReason = some "stop".data then
        { s with statusA := ⟨true, s.statusA.error⟩,
                 chat := updateStreamingMessage s.chat ⟨sid, idA, [], true, "a"⟩ }
      else if dd.finishReason = some "error".data then
        { s with statusA := ⟨true, dd.error⟩,
                 toasts := s.toasts ++ [toastModelError ('A' :: []) dd.error] }
      else s
  | CompareEv.doneB d =>
    match d with
    | none => s
    | some dd =>
      if dd.finishReason = some "stop".data then
        { s with statusB := ⟨true, s.statusB.error⟩,
                 chat := updateStreamingMessage s.chat ⟨sid, idB, [], true, "b"⟩ }
      else if dd.finishReason = some "error".data then
        { s with statusB := ⟨true, dd.error⟩,
                 toasts := s.toasts ++ [toastModelError ('B' :: []) dd.error] }
      else s

/-- One iteration of `streamComparison`'s `for` loop over a decoded
line. -/
def compareLineStep (sid idA idB : String) (s : CompareRun)
    (line : List Char) : CompareRun :=
  applyCompareEv sid idA idB s (classifyLine line)

/-- One iteration of `streamComparison`'s read loop: append the fragment
to the carried partial line, split on newlines, keep the trailing partial
line, process the complete lines, then exit the loop for good once both
participants are complete. -/
def compareReadStep (sid idA idB : String) (s : CompareRun)
    (frag : List Char) : CompareRun :=
  if s.broke = true then s
  else
    let parts := splitNl (s.lineBuf ++ frag)
    let s1 := (parts.dropLast).foldl (compareLineStep sid idA idB)
      { s with lineBuf := (parts.getLast?).getD [] }
    if s1.statusA.complete = true ∧ s1.statusB.complete = true then
      { s1 with broke := true }
    else s1

/-- The dispatches `streamComparison` makes before reading the response:
the user message is pushed and both assistant buffers are opened with an
empty chunk. -/
def compareStart (sid userId idA idB : String) (content : List Char)
    (parents : List String) (st : ChatState) : CompareRun :=
  let st1 := addMessage st sid ⟨userId, "user", content, none, some parents, some "pending"⟩
  let st2 := updateStreamingMessage st1 ⟨sid, idA, [], false, "a"⟩
  let st3 := updateStreamingMessage st2 ⟨sid, idB, [], false, "b"⟩
  ⟨st3, ⟨false, none⟩, ⟨false, none⟩, [], [], false⟩

/-- The store-visible behaviour of `CompareMessageInput.streamComparison`
on a successful request whose body is delivered as the given list of
decoded text fragments. -/
def streamComparison (sid userId idA idB : String) (content : List Char)
    (parents : List String) (st : ChatState) (reads : List (List Char)) :
    CompareRun :=
  reads.foldl (compareReadStep sid idA idB)
    (compareStart sid userId idA idB content parents st)

/-- The state threaded through one `streamMessage` call of
`useStreamingMessage`: the Redux chat slice plus the carried partial
line. -/
structure DirectRun where
  chat : ChatState
  lineBuf : List Char
  deriving DecidableEq, Repr

/-- One iteration of `streamMessage`'s `for` loop over a decoded line: an
a-chunk line is sliced, unescaped and dispatched; any a-done line
dispatches the finalizing update (its payload is not parsed in direct
mode); other lines are ignored. The payloads omit the participant, so the
reducer's default of `"a"` applies. -/
def directLineStep (sid aiId : String) (chat : ChatState)
    (line : List Char) : ChatState :=
  if startsWithL ('a' :: '0' :: ':' :: []) line = true then
    updateStreamingMessage chat
      ⟨sid, aiId, unescapeChunk (sliceContent line), false, "a"⟩
  else if startsWithL ('a' :: 'd' :: ':' :: []) line = true then
    updateStreamingMessage chat ⟨sid, aiId, [], true, "a"⟩
  else chat

/-- One iteration of `streamMessage`'s read loop: append the fragment to
the carried partial line, split on newlines, keep the trailing partial
line, process the complete lines. -/
def directReadStep (sid aiId : String) (s : DirectRun)
    (frag : List Char) : DirectRun :=
  let parts := splitNl (s.lineBuf ++ frag)
  ⟨(parts.dropLast).foldl (directLineStep sid aiId) s.chat,
   (parts.getLast?).getD []⟩

/-- The store-visible behaviour of `useStreamingMessage.streamMessage` on
a successful request: the user message is pushed and the assistant buffer
opened with an empty chunk, then the response body's decoded fragments
are framed into lines and dispatched. -/
def streamMessage (sid userId aiId : String) (content : List Char)
    (parents : List String) (st : ChatState) (reads : List (List Char)) :
    DirectRun :=
  let st1 := addMessage st sid ⟨userId, "user", content, none, some parents, some "pending"⟩
  let st2 := updateStreamingMessage st1 ⟨sid, aiId, [], false, "a"⟩
  reads.foldl (directReadStep sid aiId) ⟨st2, []⟩

/-- The `session_state` branch of the WebSocket `onmessage` handler in
`useWebSocket`: the snapshot is dispatched only when the ACTIVE session's
transcript is empty or absent (the guard reads `activeSession.id`, not
the snapshot's session id). A null active session makes the guard throw,
which the handler's surrounding try/catch swallows, leaving the state
unchanged. -/
def handleSessionState (st : ChatState) (sessionId : String)
    (msgs : Option (List Message))
    (sessionData : Option (List (String × List Char))) : ChatState :=
  match st.activeSession with
  | none => st
  | some active =>
    let len := (objGet st.messages active.id).map List.length
    if len = some 0 ∨ len = none then
      setSessionState st sessionId msgs sessionData
    else st

/-- The retry budget of `useWebSocket` (`maxReconnectAttempts`). -/
def maxReconnectAttempts : Nat := 5

/-- The reconnect delay computed by `useWebSocket`'s `onclose` handler
for a given attempt number: `Math.min(1000 * Math.pow(2, attempt),
30000)`. -/
def reconnectDelay (attempt : Nat) : Nat :=
  min (1000 * 2 ^ attempt) 30000

/-- The externally visible outcome of one run of `useWebSocket`'s
`onclose` handler. -/
inductive CloseOutcome where
  | refreshAndReconnect
  | authError
  | reconnectAfter (attempts delay : Nat)
  | giveUpError
  | nothing
  deriving DecidableEq, Repr

/-- The `onclose` handler of `useWebSocket`: closure codes 1006/1008 with
a stored refresh token and a zero attempt counter trigger one credential
refresh (reconnecting immediately on success, surfacing an auth error on
failure); otherwise any non-1000 closure within the retry budget
schedules a reconnect after the exponential-backoff delay with the
attempt counter incremented, and an exhausted budget surfaces a
connectivity error. The refresh outcome is passed in as `refreshOk`. -/
def handleClose (code attempts : Nat) (hasRefreshToken refreshOk : Bool) :
    CloseOutcome :=
  if (code = 1006 ∨ code = 1008) ∧ hasRefreshToken = true ∧ attempts = 0 then
    if refreshOk = true then CloseOutcome.refreshAndReconnect
    else CloseOutcome.authError
  else if code ≠ 1000 ∧ attempts < maxReconnectAttempts then
    CloseOutcome.reconnectAfter (attempts + 1) (reconnectDelay (attempts + 1))
  else if maxReconnectAttempts ≤ attempts then CloseOutcome.giveUpError
  else CloseOutcome.nothing

/-- The stored per-guest counters of `user.preferences`. -/
structure GuestPrefs where
  message_count : Option Nat
  session_count : Option Nat
  deriving DecidableEq, Repr

/-- The fields of the user object that `checkGuestLimits` reads.
JavaScript truthiness of `is_anonymous` (absent counts as false) is
collapsed into a boolean. -/
structure ArenaUser where
  is_anonymous : Bool
  preferences : Option GuestPrefs
  deriving DecidableEq, Repr

/-- The result shape of `checkGuestLimits`; the early return for
non-guests carries only the two capability flags, so the count and limit
fields are optional. -/
structure GuestLimits where
  canSendMessage : Bool
  canCreateSession : Bool
  messageCount : Option Nat
  sessionCount : Option Nat
  messageLimit : Option Nat
  sessionLimit : Option Nat
  deriving DecidableEq, Repr

/-- The `userService.checkGuestLimits` function: non-guests (including a
missing user) get both capabilities; guests are limited to 20 messages
and 3 sessions against their stored counters, a missing counter counting
as 0 (`preferences?.message_count || 0`). -/
def checkGuestLimits (user : Option ArenaUser) : GuestLimits :=
  match user with
  | none => ⟨true, true, none, none, none, none⟩
  | some u =>
    if u.is_anonymous = false then ⟨true, true, none, none, none, none⟩
    else
      let messageCount := (u.preferences.bind GuestPrefs.message_count).getD 0
      let sessionCount := (u.preferences.bind GuestPrefs.session_count).getD 0
      ⟨decide (messageCount < 20), decide (sessionCount < 3),
       some messageCount, some sessionCount, some 20, some 3⟩

/-- The claim-side reading of a stored guest counter: the stored value,
with a missing value treated as 0. -/
def storedCount (c : Option Nat) : Nat :=
  match c with
  | none => 0
  | some n => n

/-- The counter the guest-limit check consults for messages. -/
def storedMessageCount (u : ArenaUser) : Nat :=
  storedCount (u.preferences.bind GuestPrefs.message_count)

/-- The counter the guest-limit check consults for sessions. -/
def storedSessionCount (u : ArenaUser) : Nat :=
  storedCount (u.preferences.bind GuestPrefs.session_count)

/-- Everything about participant `a` that the rendering layer can
observe from a comparison run: a's open buffer, a's finalized messages,
and a's local model status. -/
def aView (sid idA : String) (s : CompareRun) :
    Option StreamingBuffer × List Message × ModelStatus :=
  (getBuf s.chat sid idA, msgsFor s.chat sid idA, s.statusA)

/-- The coupling invariant for the participant-isolation proof: two runs
agree on everything that can influence participant a's view — a's
buffer, a's finalized messages, a's local status, whether b is locally
complete (the only part of b's status the loop control reads), the
carried partial line, and whether the loop has exited. -/
def aRel (sid idA : String) (s1 s2 : CompareRun) : Prop :=
  getBuf s1.chat sid idA = getBuf s2.chat sid idA ∧
  msgsFor s1.chat sid idA = msgsFor s2.chat sid idA ∧
  s1.statusA = s2.statusA ∧
  s1.statusB.complete = s2.statusB.complete ∧
  s1.lineBuf = s2.lineBuf ∧
  s1.broke = s2.broke

/-- The accumulated content the reducer reads for a buffer (empty when
the buffer is absent). -/
def bufContent (st : ChatState) (sid mid : String) : List Char :=
  match getBuf st sid mid with
  | some b => b.content
  | none => []

/-- A sequence of chunk deliveries for one participant's buffer, as the
direct driver dispatches them: each raw wire chunk is unescaped on its
own and handed to the reducer in delivery order. -/
def applyChunks (sid mid : String) (st : ChatState) (cs : List (List Char)) :
    ChatState :=
  cs.foldl (fun s c =>
    updateStreamingMessage s ⟨sid, mid, unescapeChunk c, false, "a"⟩) st

theorem objGet_objSet_same {β : Type} (m : List (String × β)) (k : String)
    (v : β) : objGet (objSet m k v) k = some v := by
  induction m with
  | nil => simp [objGet, objSet]
  | cons hd tl ih =>
    obtain ⟨k1, v1⟩ := hd
    by_cases h : k1 = k
    · simp [objSet, h, objGet]
    · simp [objSet, h, objGet, ih]

theorem objGet_objSet_ne {β : Type} (m : List (String × β)) (k k2 : String)
    (v : β) (h : k2 ≠ k) : objGet (objSet m k v) k2 = objGet m k2 := by
  induction m with
  | nil =>
    have h2 : ¬(k = k2) := fun hh => h hh.symm
    simp [objGet, objSet, h2]
  | cons hd tl ih =>
    obtain ⟨k1, v1⟩ := hd
    by_cases hk : k1 = k
    · subst hk
      have h2 : ¬(k1 = k2) := fun hh => h hh.symm
      simp [objSet, objGet, h2]
    · simp [objSet, hk, objGet, ih]

theorem objGet_objDel_same {β : Type} (m : List (String × β)) (k : String) :
    objGet (objDel m k) k = none := by
  induction m with
  | nil => simp [objGet, objDel]
  | cons hd tl ih =>
    obtain ⟨k1, v1⟩ := hd
    by_cases h : k1 = k
    · simp [objDel, h, ih]
    · simp [objDel, h, objGet, ih]

theorem objGet_objDel_ne {β : Type} (m : List (String × β)) (k k2 : String)
    (h : k2 ≠ k) : objGet (objDel m k) k2 = objGet m k2 := by
  induction m with
  | nil => simp [objDel]
  | cons hd tl ih =>
    obtain ⟨k1, v1⟩ := hd
    by_cases hk : k1 = k
    · subst hk
      have h2 : ¬(k1 = k2) := fun hh => h hh.symm
      simp [objDel, objGet, h2, ih]
    · simp [objDel, hk, objGet, ih]

theorem updateStreamingMessage_false (st : ChatState) (sid mid : String)
    (ch : List Char) (p : String) :
    updateStreamingMessage st ⟨sid, mid, ch, false, p⟩ =
      { st with
          streamingMessages :=
            objSet st.streamingMessages sid
              (objSet ((objGet st.streamingMessages sid).getD []) mid
                ⟨bufContent st sid mid ++ ch, p, false⟩) } := rfl

theorem updateStreamingMessage_true (st : ChatState) (sid mid : String)
    (ch : List Char) (p : String) :
    updateStreamingMessage st ⟨sid, mid, ch, true, p⟩ =
      { st with
          messages :=
            objSet st.messages sid
              ((objGet st.messages sid).getD [] ++
                [⟨mid, "assistant", bufContent st sid mid ++ ch, some p, none, none⟩]),
          streamingMessages :=
            objSet st.streamingMessages sid
              (objDel (objSet ((objGet st.streamingMessages sid).getD []) mid
                ⟨bufContent st sid mid ++ ch, p, true⟩) mid) } := rfl

theorem getBuf_usm_false_same (st : ChatState) (sid mid : String)
    (ch : List Char) (p : String) :
    getBuf (updateStreamingMessage st ⟨sid, mid, ch, false, p⟩) sid mid =
      some ⟨bufContent st sid mid ++ ch, p, false⟩ := by
  rw [updateStreamingMessage_false]
  simp [getBuf, objGet_objSet_same]

theorem getBuf_usm_false_other (st : ChatState) (sid mid mid2 : String)
    (ch : List Char) (p : String) (h : mid2 ≠ mid) :
    getBuf (updateStreamingMessage st ⟨sid, mid, ch, false, p⟩) sid mid2 =
      getBuf st sid mid2 := by
  rw [updateStreamingMessage_false]
  simp [getBuf, objGet_objSet_same, objGet_objSet_ne _ _ _ _ h]

theorem getBuf_usm_true_same (st : ChatState) (sid mid : String)
    (ch : List Char) (p : String) :
    getBuf (updateStreamingMessage st ⟨sid, mid, ch, true, p⟩) sid mid = none := by
  rw [updateStreamingMessage_true]
  simp [getBuf, objGet_objSet_same, objGet_objDel_same]

theorem getBuf_usm_true_other (st : ChatState) (sid mid mid2 : String)
    (ch : List Char) (p : String) (h : mid2 ≠ mid) :
    getBuf (updateStreamingMessage st ⟨sid, mid, ch, true, p⟩) sid mid2 =
      getBuf st sid mid2 := by
  rw [updateStreamingMessage_true]
  simp [getBuf, objGet_objSet_same, objGet_objDel_ne _ _ _ h,
    objGet_objSet_ne _ _ _ _ h]

theorem sessionMsgs_usm_true (st : ChatState) (sid mid : String)
    (ch : List Char) (p : String) :
    sessionMsgs (updateStreamingMessage st ⟨sid, mid, ch, true, p⟩) sid =
      sessionMsgs st sid ++
        [⟨mid, "assistant", bufContent st sid mid ++ ch, some p, none, none⟩] := by
  rw [updateStreamingMessage_true]
  simp [sessionMsgs, objGet_objSet_same]

/-- C3 (counterexample): a duplicate completion signal does NOT finalize
exactly once. Opening a buffer, streaming a chunk and applying the
completion update twice leaves TWO finalized assistant messages with the
same message id in the transcript (the reducer re-creates the missing
buffer and pushes a second, empty message), so the transcript does not
contain exactly one finalized message with that id. -/
theorem c3_duplicate_complete_counterexample :
    (msgsFor (updateStreamingMessage
      (updateStreamingMessage
        (updateStreamingMessage
          (updateStreamingMessage emptyChat ⟨"s", "m", [], false, "a"⟩)
          ⟨"s", "m", "hi".data, false, "a"⟩)
        ⟨"s", "m", [], true, "a"⟩)
      ⟨"s", "m", [], true, "a"⟩) "s" "m").length = 2 ∧
    ¬((msgsFor (updateStreamingMessage
      (updateStreamingMessage
        (updateStreamingMessage
          (updateStreamingMessage emptyChat ⟨"s", "m", [], false, "a"⟩)
          ⟨"s", "m", "hi".data, false, "a"⟩)
        ⟨"s", "m", [], true, "a"⟩)
      ⟨"s", "m", [], true, "a"⟩) "s" "m").length = 1) := by
  decide

/-- C3 (amended): each invocation of the completion path finalizes once,
so the duplicate signal finalizes a second time instead of being
dropped: applying the completion update when the buffer for the id is
absent (as it is after the first completion deleted it) appends one more
finalized assistant message with that id and empty content to the
session's transcript. -/
theorem c3_duplicate_complete_amended (st : ChatState) (sid mid p : String)
    (h : getBuf st sid mid = none) :
    sessionMsgs (updateStreamingMessage st ⟨sid, mid, [], true, p⟩) sid =
      sessionMsgs st sid ++ [⟨mid, "assistant", [], some p, none, none⟩] := by
  rw [sessionMsgs_usm_true]
  simp [bufContent, h]

/-- C3 (witness): the amended theorem applied to the initial state. -/
theorem c3_duplicate_complete_amended_witness :
    sessionMsgs (updateStreamingMessage emptyChat ⟨"s", "m", [], true, "a"⟩) "s" =
      [⟨"m", "assistant", [], some "a", none, none⟩] :=
  c3_duplicate_complete_amended emptyChat "s" "m" "a" (by decide)

/-- C4 (counterexample): a chunk delivered for a buffer that is no longer
in the open set does NOT leave the set of open buffers unchanged: applied
to a state with no open buffers, it re-creates an open buffer for that
session and message id. -/
theorem c4_late_chunk_counterexample :
    getBuf (updateStreamingMessage emptyChat ⟨"s", "m", ('x' :: []), false, "a"⟩)
      "s" "m" ≠ none := by
  decide

/-- C4 (amended): a chunk delivered for a (sessionId, messageId) with no
open buffer leaves the finalized message list unchanged, but instead of
being rejected it re-creates an open, incomplete buffer holding exactly
the chunk's text. -/
theorem c4_late_chunk_amended (st : ChatState) (sid mid p : String)
    (ch : List Char) (h : getBuf st sid mid = none) :
    (updateStreamingMessage st ⟨sid, mid, ch, false, p⟩).messages = st.messages ∧
    getBuf (updateStreamingMessage st ⟨sid, mid, ch, false, p⟩) sid mid =
      some ⟨ch, p, false⟩ := by
  constructor
  · rw [updateStreamingMessage_false]
  · rw [getBuf_usm_false_same]
    simp [bufContent, h]

/-- C4 (witness): the amended theorem applied to the initial state. -/
theorem c4_late_chunk_amended_witness :
    (updateStreamingMessage emptyChat ⟨"s", "m", ('y' :: []), false, "a"⟩).messages =
      emptyChat.messages ∧
    getBuf (updateStreamingMessage emptyChat ⟨"s", "m", ('y' :: []), false, "a"⟩)
      "s" "m" = some ⟨('y' :: []), "a", false⟩ :=
  c4_late_chunk_amended emptyChat "s" "m" "a" ('y' :: []) (by decide)

/-- C8: the reconnect delay is min(1000 * 2 ^ attempt, 30000): it is
non-decreasing in the attempt number and equals 30000 as soon as
1000 * 2 ^ attempt reaches 30000; a non-normal closure (outside the
refresh special case) within the budget of 5 schedules a reconnect with
the attempt counter incremented and that delay, and once the budget is
exhausted no reconnect is scheduled and a connectivity error is
surfaced. -/
theorem c8_backoff :
    (∀ n m : Nat, n ≤ m → reconnectDelay n ≤ reconnectDelay m) ∧
    (∀ k : Nat, 30000 ≤ 1000 * 2 ^ k → reconnectDelay k = 30000) ∧
    (∀ code attempts : Nat, ∀ hasRT refreshOk : Bool,
      ¬((code = 1006 ∨ code = 1008) ∧ hasRT = true ∧ attempts = 0) →
      code ≠ 1000 → attempts < maxReconnectAttempts →
      handleClose code attempts hasRT refreshOk =
        CloseOutcome.reconnectAfter (attempts + 1) (reconnectDelay (attempts + 1))) ∧
    (∀ code attempts : Nat, ∀ hasRT refreshOk : Bool,
      ¬((code = 1006 ∨ code = 1008) ∧ hasRT = true ∧ attempts = 0) →
      maxReconnectAttempts ≤ attempts →
      handleClose code attempts hasRT refreshOk = CloseOutcome.giveUpError) := by
  refine ⟨?_, ?_, ?_, ?_⟩
  · intro n m h
    exact min_le_min (Nat.mul_le_mul_left 1000
      (Nat.pow_le_pow_right (by decide) h)) (le_refl 30000)
  · intro k h
    exact min_eq_right h
  · intro code attempts hasRT refreshOk hna hc hb
    rw [handleClose, if_neg hna, if_pos ⟨hc, hb⟩]
  · intro code attempts hasRT refreshOk hna hb
    have h2 : ¬(code ≠ 1000 ∧ attempts < maxReconnectAttempts) := by
      intro hcon
      exact absurd hb (Nat.not_le.mpr hcon.2)
    rw [handleClose, if_neg hna, if_neg h2, if_pos hb]

/-- C8 (witness): the backoff facts at concrete attempts and closure
codes. -/
theorem c8_backoff_witness :
    reconnectDelay 2 ≤ reconnectDelay 3 ∧
    reconnectDelay 5 = 30000 ∧
    handleClose 1005 2 false false =
      CloseOutcome.reconnectAfter 3 (reconnectDelay 3) ∧
    handleClose 1005 5 false false = CloseOutcome.giveUpError :=
  ⟨c8_backoff.1 2 3 (by decide), c8_backoff.2.1 5 (by decide),
   c8_backoff.2.2.1 1005 2 false false (by decide) (by decide) (by decide),
   c8_backoff.2.2.2 1005 5 false false (by decide) (by decide)⟩

/-- C10: for a guest (anonymous) user, the limit check allows sending
exactly when the stored message counter (missing treated as 0) is below
20, and allows creating a session exactly when the stored session counter
is below 3; a non-anonymous or missing user always gets both
capabilities. -/
theorem c10_guest_limits (u : ArenaUser) :
    (u.is_anonymous = true →
      (((checkGuestLimits (some u)).canSendMessage = true ↔
          storedMessageCount u < 20) ∧
       ((checkGuestLimits (some u)).canCreateSession = true ↔
          storedSessionCount u < 3))) ∧
    (u.is_anonymous = false →
      ((checkGuestLimits (some u)).canSendMessage = true ∧
       (checkGuestLimits (some u)).canCreateSession = true)) ∧
    ((checkGuestLimits none).canSendMessage = true ∧
     (checkGuestLimits none).canCreateSession = true) := by
  have hsc : ∀ c : Option Nat, storedCount c = c.getD 0 := by
    intro c
    cases c <;> rfl
  refine ⟨?_, ?_, ?_⟩
  · intro h
    simp [checkGuestLimits, h, storedMessageCount, storedSessionCount, hsc]
  · intro h
    simp [checkGuestLimits, h]
  · simp [checkGuestLimits]

/-- C10 (witness): a guest at 19 messages and 3 sessions may still send
but may not create a session; a signed-in user may do both. -/
theorem c10_guest_limits_witness :
    ((checkGuestLimits (some ⟨true, some ⟨some 19, some 3⟩⟩)).canSendMessage = true ↔
      storedMessageCount ⟨true, some ⟨some 19, some 3⟩⟩ < 20) ∧
    ((checkGuestLimits (some ⟨false, none⟩)).canSendMessage = true ∧
     (checkGuestLimits (some ⟨false, none⟩)).canCreateSession = true) :=
  ⟨((c10_guest_limits ⟨true, some ⟨some 19, some 3⟩⟩).1 rfl).1,
   (c10_guest_limits ⟨false, none⟩).2.1 rfl⟩

theorem replacePairBsBs_cons_ne (c : Char) (l : List Char)
    (h : ¬(c = '\\')) : replacePairBsBs (c :: l) = c :: replacePairBsBs l := by
  cases l with
  | nil => rfl
  | cons d rest => simp [replacePairBsBs, h]

theorem replaceBsN_cons_ne (c : Char) (l : List Char) (h : ¬(c = '\\')) :
    replaceBsN (c :: l) = c :: replaceBsN l := by
  cases l with
  | nil => rfl
  | cons d rest => simp [replaceBsN, h]

theorem replaceBsN_bs_not_n (l : List Char) (h : l.head? ≠ some 'n') :
    replaceBsN ('\\' :: l) = '\\' :: replaceBsN l := by
  cases l with
  | nil => rfl
  | cons d rest =>
    have hd : ¬(d = 'n') := by
      intro hh
      exact h (by simp [hh])
    simp [replaceBsN, hd]

theorem pass1_escape (s : List Char) :
    replacePairBsBs (escapeChunk s) = substBsN s := by
  induction s with
  | nil => rfl
  | cons c rest ih =>
    by_cases hb : c = '\\'
    · subst hb
      simp [escapeChunk, replacePairBsBs, substBsN, ih]
    · by_cases hn : c = '\n'
      · subst hn
        rw [show escapeChunk ('\n' :: rest) = '\\' :: 'n' :: escapeChunk rest
          from by simp [escapeChunk]]
        rw [show replacePairBsBs ('\\' :: 'n' :: escapeChunk rest) =
            '\\' :: replacePairBsBs ('n' :: escapeChunk rest)
          from by simp [replacePairBsBs]]
        rw [replacePairBsBs_cons_ne 'n' _ (by decide), ih]
        simp [substBsN]
      · rw [show escapeChunk (c :: rest) = c :: escapeChunk rest
          from by simp [escapeChunk, hb, hn]]
        rw [replacePairBsBs_cons_ne c _ hb, ih]
        simp [substBsN, hn]

theorem hasBsN_tail (c : Char) (rest : List Char)
    (h : hasBsN (c :: rest) = false) : hasBsN rest = false := by
  cases rest with
  | nil => rfl
  | cons d tl =>
    by_cases hcd : c = '\\' ∧ d = 'n'
    · have ht : hasBsN (c :: d :: tl) = true := by
        simp only [hasBsN]
        rw [if_pos hcd]
      rw [ht] at h
      exact absurd h (by decide)
    · have ht : hasBsN (c :: d :: tl) = hasBsN (d :: tl) := by
        simp only [hasBsN]
        rw [if_neg hcd]
      rw [ht] at h
      exact h

theorem pass2_subst (s : List Char) (h : hasBsN s = false) :
    replaceBsN (substBsN s) = s := by
  induction s with
  | nil => rfl
  | cons c rest ih =>
    have hrest := hasBsN_tail c rest h
    by_cases hn : c = '\n'
    · subst hn
      rw [show substBsN ('\n' :: rest) = '\\' :: 'n' :: substBsN rest
        from by simp [substBsN]]
      rw [show replaceBsN ('\\' :: 'n' :: substBsN rest) =
          '\n' :: replaceBsN (substBsN rest)
        from by simp [replaceBsN]]
      rw [ih hrest]
    · rw [show substBsN (c :: rest) = c :: substBsN rest
        from by simp [substBsN, hn]]
      by_cases hb : c = '\\'
      · subst hb
        have hh : (substBsN rest).head? ≠ some 'n' := by
          cases rest with
          | nil => simp [substBsN]
          | cons d tl =>
            have hd : ¬(d = 'n') := by
              intro hdn
              have ht : hasBsN ('\\' :: d :: tl) = true := by
                simp [hasBsN, hdn]
              rw [ht] at h
              exact absurd h (by decide)
            by_cases hdnl : d = '\n'
            · subst hdnl
              simp [substBsN]
            · simp [substBsN, hdnl, hd]
        rw [replaceBsN_bs_not_n _ hh, ih hrest]
      · rw [replaceBsN_cons_ne c _ hb, ih hrest]

/-- C2 (counterexample): the decoder does not invert the escape on the
string newline-backslash-`n` (which contains both a backslash and a
newline): decoding its escaped form yields two newlines, because the
first pass collapses the escaped backslash and the second pass then
consumes the resulting backslash-`n` as if it were an encoded newline. -/
theorem c2_roundtrip_counterexample :
    unescapeChunk (escapeChunk ('\n' :: '\\' :: 'n' :: [])) =
      ('\n' :: '\n' :: []) ∧
    unescapeChunk (escapeChunk ('\n' :: '\\' :: 'n' :: [])) ≠
      ('\n' :: '\\' :: 'n' :: []) := by
  decide

/-- C2 (amended): the decoder's two-pass replacement inverts the escape
on every string with no literal backslash immediately followed by the
letter `n`; strings that do contain that two-character sequence are
corrupted (see the counterexample). -/
theorem c2_roundtrip_amended (s : List Char) (h : hasBsN s = false) :
    unescapeChunk (escapeChunk s) = s := by
  rw [unescapeChunk, pass1_escape, pass2_subst s h]

/-- C2 (witness): the amended round trip on a string containing both
backslashes (single and doubled) and a newline. -/
theorem c2_roundtrip_amended_witness :
    unescapeChunk (escapeChunk
        ('a' :: '\\' :: 'b' :: '\n' :: '\\' :: '\\' :: 'x' :: [])) =
      ('a' :: '\\' :: 'b' :: '\n' :: '\\' :: '\\' :: 'x' :: []) :=
  c2_roundtrip_amended _ (by decide)

theorem applyChunks_acc (sid mid : String) (cs : List (List Char))
    (st : ChatState) (t : List Char)
    (hb : getBuf st sid mid = some ⟨t, "a", false⟩) :
    getBuf (applyChunks sid mid st cs) sid mid =
      some ⟨t ++ joinL (cs.map unescapeChunk), "a", false⟩ ∧
    (applyChunks sid mid st cs).messages = st.messages := by
  induction cs generalizing st t with
  | nil => simp [applyChunks, joinL, hb]
  | cons c rest ih =>
    have hstep : getBuf (updateStreamingMessage st
        ⟨sid, mid, unescapeChunk c, false, "a"⟩) sid mid =
        some ⟨t ++ unescapeChunk c, "a", false⟩ := by
      rw [getBuf_usm_false_same]
      simp [bufContent, hb]
    have hmsg : (updateStreamingMessage st
        ⟨sid, mid, unescapeChunk c, false, "a"⟩).messages = st.messages := by
      rw [updateStreamingMessage_false]
    have hfold : applyChunks sid mid st (c :: rest) =
        applyChunks sid mid
          (updateStreamingMessage st ⟨sid, mid, unescapeChunk c, false, "a"⟩)
          rest := rfl
    obtain ⟨h1, h2⟩ := ih _ _ hstep
    refine ⟨?_, ?_⟩
    · rw [hfold, h1]
      simp [joinL, List.append_assoc]
    · rw [hfold, h2, hmsg]

/-- C1: for any sequence of raw wire chunks delivered in order to one
participant's freshly opened buffer, the finalized assistant message
produced at completion has exactly the concatenation, in delivery order,
of the chunks each unescaped independently before being appended (the
decoder never unescapes across a concatenation boundary). -/
theorem c1_chunk_concat (st : ChatState) (sid mid : String)
    (cs : List (List Char)) (h : getBuf st sid mid = none) :
    sessionMsgs (updateStreamingMessage
        (applyChunks sid mid
          (updateStreamingMessage st ⟨sid, mid, [], false, "a"⟩) cs)
        ⟨sid, mid, [], true, "a"⟩) sid =
      sessionMsgs st sid ++
        [⟨mid, "assistant", joinL (cs.map unescapeChunk), some "a", none, none⟩] := by
  have hopen : getBuf (updateStreamingMessage st ⟨sid, mid, [], false, "a"⟩)
      sid mid = some ⟨[], "a", false⟩ := by
    rw [getBuf_usm_false_same]
    simp [bufContent, h]
  obtain ⟨h1, h2⟩ := applyChunks_acc sid mid cs _ [] hopen
  have hbc : bufContent (applyChunks sid mid
      (updateStreamingMessage st ⟨sid, mid, [], false, "a"⟩) cs) sid mid =
      joinL (cs.map unescapeChunk) := by
    simp [bufContent, h1]
  have hmsgs : sessionMsgs (applyChunks sid mid
      (updateStreamingMessage st ⟨sid, mid, [], false, "a"⟩) cs) sid =
      sessionMsgs st sid := by
    unfold sessionMsgs
    rw [h2, updateStreamingMessage_false]
  rw [sessionMsgs_usm_true, hbc, hmsgs]
  simp

/-- C1 (witness): two chunks, the second carrying an escaped newline,
concatenate to the final text with each chunk decoded on its own. -/
theorem c1_chunk_concat_witness :
    sessionMsgs (updateStreamingMessage
        (applyChunks "s" "m"
          (updateStreamingMessage emptyChat ⟨"s", "m", [], false, "a"⟩)
          (('h' :: 'i' :: []) :: ('\\' :: 'n' :: 'y' :: []) :: []))
        ⟨"s", "m", [], true, "a"⟩) "s" =
      [⟨"m", "assistant", ('h' :: 'i' :: '\n' :: 'y' :: []), some "a", none, none⟩] := by
  have hc := c1_chunk_concat emptyChat "s" "m"
    (('h' :: 'i' :: []) :: ('\\' :: 'n' :: 'y' :: []) :: []) (by decide)
  rw [hc]
  decide

theorem setSessionState_messages (st : ChatState) (sid : String)
    (msgs : Option (List Message))
    (meta : Option (List (String × List Char))) :
    (setSessionState st sid msgs meta).messages =
      objSet st.messages sid (msgs.getD []) := by
  unfold setSessionState
  cases meta with
  | none => rfl
  | some m =>
    dsimp only
    split
    · rfl
    · split
      · rfl
      · rfl

theorem handleSessionState_eq (st : ChatState) (sid : String)
    (msgs : Option (List Message))
    (meta : Option (List (String × List Char))) (active : SessionRec)
    (hact : st.activeSession = some active) :
    handleSessionState st sid msgs meta =
      if ((objGet st.messages active.id).map List.length = some 0) ∨
         ((objGet st.messages active.id).map List.length = none) then
        setSessionState st sid msgs meta
      else st := by
  unfold handleSessionState
  rw [hact]

/-- C9 (counterexample): a snapshot for a session whose transcript is
non-empty IS applied when a different session is active: with session A
active (holding no messages) and session B holding one message, the
snapshot for B replaces B's transcript, because the guard consults the
active session's transcript rather than the snapshot's. -/
theorem c9_session_snapshot_counterexample :
    sessionMsgs (handleSessionState
      ⟨[], some ⟨"A", []⟩,
       ("B", (⟨"m1", "user", ('o' :: []), none, none, none⟩ : Message) :: []) :: [],
       []⟩ "B" (some []) none) "B" = [] ∧
    sessionMsgs
      (⟨[], some ⟨"A", []⟩,
        ("B", (⟨"m1", "user", ('o' :: []), none, none, none⟩ : Message) :: []) :: [],
        []⟩ : ChatState) "B" ≠ [] := by
  decide

/-- C9 (amended): the snapshot guard consults the ACTIVE session's
transcript; when the snapshot's session is the currently active session,
the claim holds as stated: a non-empty transcript is never overwritten,
and an empty or absent one is replaced by the snapshot's message list. -/
theorem c9_session_snapshot_amended (st : ChatState) (sid : String)
    (msgs : Option (List Message))
    (meta : Option (List (String × List Char))) (active : SessionRec)
    (hact : st.activeSession = some active) (hid : active.id = sid) :
    (sessionMsgs st sid ≠ [] → handleSessionState st sid msgs meta = st) ∧
    (sessionMsgs st sid = [] →
      sessionMsgs (handleSessionState st sid msgs meta) sid = msgs.getD []) := by
  rw [handleSessionState_eq st sid msgs meta active hact, hid]
  constructor
  · intro hne
    have hg : ¬(((objGet st.messages sid).map List.length = some 0) ∨
        ((objGet st.messages sid).map List.length = none)) := by
      intro hor
      cases hobj : objGet st.messages sid with
      | none =>
        exact hne (by simp [sessionMsgs, hobj])
      | some l =>
        cases hor with
        | inl h0 =>
          rw [hobj] at h0
          simp at h0
          exact hne (by simp [sessionMsgs, hobj, h0])
        | inr hn =>
          rw [hobj] at hn
          simp at hn
    rw [if_neg hg]
  · intro hemp
    have hg : ((objGet st.messages sid).map List.length = some 0) ∨
        ((objGet st.messages sid).map List.length = none) := by
      cases hobj : objGet st.messages sid with
      | none =>
        right
        simp [hobj]
      | some l =>
        left
        have hl : l = [] := by
          simpa [sessionMsgs, hobj] using hemp
        simp [hobj, hl]
    rw [if_pos hg]
    simp [sessionMsgs, setSessionState_messages, objGet_objSet_same]

/-- C9 (witness): with the snapshot's session active and already holding
a message, the snapshot is ignored; with it active and empty, the
snapshot's messages are installed. -/
theorem c9_session_snapshot_amended_witness :
    handleSessionState
      ⟨[], some ⟨"S", []⟩,
       ("S", (⟨"m1", "user", ('o' :: []), none, none, none⟩ : Message) :: []) :: [],
       []⟩ "S" (some []) none =
      ⟨[], some ⟨"S", []⟩,
       ("S", (⟨"m1", "user", ('o' :: []), none, none, none⟩ : Message) :: []) :: [],
       []⟩ :=
  (c9_session_snapshot_amended _ "S" (some []) none ⟨"S", []⟩ rfl rfl).1
    (by decide)

/-- C7 (counterexample): on the literal line `a0:hi` the direct-mode
decoder extracts `line.slice(4, -1)`, which is empty, so the finalized
assistant message has empty content rather than `hi`: the transcript
after the claimed exchange is user `hello` plus an EMPTY assistant
message. -/
theorem c7_direct_happy_counterexample :
    ((sessionMsgs ((streamMessage "s" "u1" "m1" "hello".data [] emptyChat
          ("a0:hi\nad:\x7b\"finishReason\":\"stop\"\x7d\n".data :: [])).chat)
        "s").filter (fun m => decide (m.role = "assistant"))).map
      Message.content = ([] :: []) ∧
    ¬(((sessionMsgs ((streamMessage "s" "u1" "m1" "hello".data [] emptyChat
          ("a0:hi\nad:\x7b\"finishReason\":\"stop\"\x7d\n".data :: [])).chat)
        "s").filter (fun m => decide (m.role = "assistant"))).map
      Message.content = ("hi".data :: [])) := by
  decide

/-- C7 (amended): the happy-path scenario holds for the wire line the
decoder actually expects, `a0:"hi"` (the chunk payload is quote-wrapped,
matching the four-character prefix and one-character suffix the driver
strips): sending `hello` and receiving that line followed by the stop
signal leaves exactly one user message `hello` and one finalized
assistant message `hi`. -/
theorem c7_direct_happy_amended :
    sessionMsgs ((streamMessage "s" "u1" "m1" "hello".data [] emptyChat
        ("a0:\"hi\"\nad:\x7b\"finishReason\":\"stop\"\x7d\n".data :: [])).chat)
      "s" =
      ((⟨"u1", "user", "hello".data, none, some [], some "pending"⟩ : Message) ::
       (⟨"m1", "assistant", "hi".data, some "a", none, none⟩ : Message) :: []) := by
  decide

/-- C5 (counterexample): after `a0:"partial"` and an error completion for
participant a, the buffer is NOT removed from the open set: it is still
registered for (s, ma), still incomplete, and still holds the partial
text — nothing was discarded. -/
theorem c5_error_completion_counterexample :
    getBuf (streamComparison "s" "u" "ma" "mb" "hi".data [] emptyChat
        ("a0:\"partial\"\nad:\x7b\"finishReason\":\"error\",\"error\":\"boom\"\x7d\n".data
          :: [])).chat "s" "ma" =
      some ⟨"partial".data, "a", false⟩ ∧
    getBuf (streamComparison "s" "u" "ma" "mb" "hi".data [] emptyChat
        ("a0:\"partial\"\nad:\x7b\"finishReason\":\"error\",\"error\":\"boom\"\x7d\n".data
          :: [])).chat "s" "ma" ≠ none := by
  decide

theorem classifyLine_ad (pay : List Char) :
    classifyLine ('a' :: 'd' :: ':' :: pay) =
      CompareEv.doneA (jsonParseDone pay) := by
  have hwa : Char.isWhitespace 'a' = false := by decide
  simp [classifyLine, allWhitespaceL, startsWithL, hwa]

theorem classifyLine_bd (pay : List Char) :
    classifyLine ('b' :: 'd' :: ':' :: pay) =
      CompareEv.doneB (jsonParseDone pay) := by
  have hwb : Char.isWhitespace 'b' = false := by decide
  simp [classifyLine, allWhitespaceL, startsWithL, hwb]

/-- C5 (amended): an error completion for participant a marks the
participant complete in the driver's local model status (recording the
error) and surfaces a toast naming the participant, but dispatches
nothing to the store: the transcript and the open-buffer set are left
untouched, so no finalized message is created and the buffer — with its
accumulated partial text — remains in the open set rather than being
removed or discarded. -/
theorem c5_error_completion_amended (sid idA idB : String) (s : CompareRun)
    (pay : List Char) (dd : DoneData) (hp : jsonParseDone pay = some dd)
    (hfr : dd.finishReason = some "error".data) :
    compareLineStep sid idA idB s ('a' :: 'd' :: ':' :: pay) =
      { s with
          statusA := ⟨true, dd.error⟩,
          toasts := s.toasts ++ [toastModelError ('A' :: []) dd.error] } := by
  unfold compareLineStep
  rw [classifyLine_ad, hp]
  simp only [applyCompareEv]
  rw [hfr, if_neg (by decide), if_pos rfl]

/-- C5 (witness): the amended theorem at the concrete error payload,
showing the recorded status and toast. -/
theorem c5_error_completion_amended_witness :
    compareLineStep "s" "ma" "mb"
      ⟨emptyChat, ⟨false, none⟩, ⟨false, none⟩, [], [], false⟩
      ('a' :: 'd' :: ':' ::
        "\x7b\"finishReason\":\"error\",\"error\":\"boom\"\x7d".data) =
      ⟨emptyChat, ⟨true, some "boom".data⟩, ⟨false, none⟩,
       (toastModelError ('A' :: []) (some "boom".data)) :: [], [], false⟩ :=
  c5_error_completion_amended "s" "ma" "mb"
    ⟨emptyChat, ⟨false, none⟩, ⟨false, none⟩, [], [], false⟩
    "\x7b\"finishReason\":\"error\",\"error\":\"boom\"\x7d".data
    ⟨some "error".data, some "boom".data⟩ (by decide) rfl

theorem msgsFor_usm_false (st : ChatState) (sid mid : String) (ch : List Char)
    (p : String) (sid2 mid2 : String) :
    msgsFor (updateStreamingMessage st ⟨sid, mid, ch, false, p⟩) sid2 mid2 =
      msgsFor st sid2 mid2 := by
  unfold msgsFor sessionMsgs
  rw [updateStreamingMessage_false]

theorem msgsFor_usm_true_same (st : ChatState) (sid mid : String)
    (ch : List Char) (p : String) :
    msgsFor (updateStreamingMessage st ⟨sid, mid, ch, true, p⟩) sid mid =
      msgsFor st sid mid ++
        [⟨mid, "assistant", bufContent st sid mid ++ ch, some p, none, none⟩] := by
  unfold msgsFor
  rw [sessionMsgs_usm_true]
  simp [List.filter_append]

theorem msgsFor_usm_true_other (st : ChatState) (sid mid mid2 : String)
    (ch : List Char) (p : String) (h : mid2 ≠ mid) :
    msgsFor (updateStreamingMessage st ⟨sid, mid, ch, true, p⟩) sid mid2 =
      msgsFor st sid mid2 := by
  unfold msgsFor
  rw [sessionMsgs_usm_true]
  simp [List.filter_append, Ne.symm h]

theorem splitNl_ne_nil (l : List Char) : splitNl l ≠ [] := by
  induction l with
  | nil => simp [splitNl]
  | cons c rest ih =>
    simp only [splitNl]
    cases hs : splitNl rest with
    | nil => simp
    | cons x xs =>
      by_cases hc : c = '\n' <;> simp [hc]

theorem splitNl_append_nl (l : List Char) :
    splitNl (l ++ ('\n' :: [])) = splitNl l ++ ([] :: []) := by
  induction l with
  | nil => rfl
  | cons c rest ih =>
    simp only [List.cons_append, splitNl, List.append_eq]
    rw [ih]
    cases hs : splitNl rest with
    | nil => exact absurd hs (splitNl_ne_nil rest)
    | cons x xs =>
      simp only [List.cons_append]
      by_cases hc : c = '\n' <;> simp [hc]

theorem splitNl_no_nl (l : List Char) (h : ¬('\n' ∈ l)) :
    splitNl l = (l :: []) := by
  induction l with
  | nil => rfl
  | cons c rest ih =>
    have hc : ¬(c = '\n') := fun hh => h (by rw [hh]; exact List.mem_cons_self _ _)
    have hr : ¬('\n' ∈ rest) := fun hh => h (List.mem_cons_of_mem _ hh)
    simp only [splitNl]
    rw [ih hr]
    simp [hc]

theorem compareLineStep_lineBuf (sid idA idB : String) (s : CompareRun)
    (line : List Char) :
    (compareLineStep sid idA idB s line).lineBuf = s.lineBuf := by
  unfold compareLineStep
  cases hc : classifyLine line with
  | skip => rfl
  | chunkA l => rfl
  | chunkB l => rfl
  | doneA d =>
    cases d with
    | none => rfl
    | some dd =>
      simp only [applyCompareEv]
      split
      · rfl
      · split
        · rfl
        · rfl
  | doneB d =>
    cases d with
    | none => rfl
    | some dd =>
      simp only [applyCompareEv]
      split
      · rfl
      · split
        · rfl
        · rfl

theorem foldl_lineStep_lineBuf (sid idA idB : String)
    (lines : List (List Char)) :
    ∀ s : CompareRun,
      (lines.foldl (compareLineStep sid idA idB) s).lineBuf = s.lineBuf := by
  induction lines with
  | nil => intro s; rfl
  | cons l rest ih =>
    intro s
    rw [List.foldl_cons, ih, compareLineStep_lineBuf]

theorem aRel_refl (sid idA : String) (s : CompareRun) : aRel sid idA s s :=
  ⟨rfl, rfl, rfl, rfl, rfl, rfl⟩

theorem aRel_breakStep (sid idA : String) (t1 t2 : CompareRun)
    (h : aRel sid idA t1 t2) :
    aRel sid idA
      (if t1.statusA.complete = true ∧ t1.statusB.complete = true then
        { t1 with broke := true } else t1)
      (if t2.statusA.complete = true ∧ t2.statusB.complete = true then
        { t2 with broke := true } else t2) := by
  obtain ⟨h1, h2, h3, h4, h5, h6⟩ := h
  by_cases hc : t1.statusA.complete = true ∧ t1.statusB.complete = true
  · rw [if_pos hc, if_pos (by rw [← h3, ← h4]; exact hc)]
    exact ⟨h1, h2, h3, h4, h5, rfl⟩
  · rw [if_neg hc, if_neg (by rw [← h3, ← h4]; exact hc)]
    exact ⟨h1, h2, h3, h4, h5, h6⟩

theorem aRel_lineStep (sid idA idB : String) (hne : idA ≠ idB)
    (s1 s2 : CompareRun) (h : aRel sid idA s1 s2) (line : List Char) :
    aRel sid idA (compareLineStep sid idA idB s1 line)
      (compareLineStep sid idA idB s2 line) := by
  obtain ⟨h1, h2, h3, h4, h5, h6⟩ := h
  have hb : bufContent s1.chat sid idA = bufContent s2.chat sid idA := by
    unfold bufContent
    rw [h1]
  unfold compareLineStep
  cases hc : classifyLine line with
  | skip => exact ⟨h1, h2, h3, h4, h5, h6⟩
  | chunkA l =>
    simp only [applyCompareEv]
    refine ⟨?_, ?_, h3, h4, h5, h6⟩
    · rw [getBuf_usm_false_same, getBuf_usm_false_same, hb]
    · rw [msgsFor_usm_false, msgsFor_usm_false, h2]
  | chunkB l =>
    simp only [applyCompareEv]
    refine ⟨?_, ?_, h3, h4, h5, h6⟩
    · rw [getBuf_usm_false_other _ _ _ _ _ _ hne,
        getBuf_usm_false_other _ _ _ _ _ _ hne, h1]
    · rw [msgsFor_usm_false, msgsFor_usm_false, h2]
  | doneA d =>
    cases d with
    | none => exact ⟨h1, h2, h3, h4, h5, h6⟩
    | some dd =>
      simp only [applyCompareEv]
      by_cases hstop : dd.finishReason = some "stop".data
      · rw [if_pos hstop, if_pos hstop]
        refine ⟨?_, ?_, ?_, h4, h5, h6⟩
        · rw [getBuf_usm_true_same, getBuf_usm_true_same]
        · rw [msgsFor_usm_true_same, msgsFor_usm_true_same, h2, hb]
        · rw [h3]
      · rw [if_neg hstop, if_neg hstop]
        by_cases herr : dd.finishReason = some "error".data
        · rw [if_pos herr, if_pos herr]
          exact ⟨h1, h2, rfl, h4, h5, h6⟩
        · rw [if_neg herr, if_neg herr]
          exact ⟨h1, h2, h3, h4, h5, h6⟩
  | doneB d =>
    cases d with
    | none => exact ⟨h1, h2, h3, h4, h5, h6⟩
    | some dd =>
      simp only [applyCompareEv]
      by_cases hstop : dd.finishReason = some "stop".data
      · rw [if_pos hstop, if_pos hstop]
        refine ⟨?_, ?_, h3, rfl, h5, h6⟩
        · rw [getBuf_usm_true_other _ _ _ _ _ _ hne,
            getBuf_usm_true_other _ _ _ _ _ _ hne, h1]
        · rw [msgsFor_usm_true_other _ _ _ _ _ _ hne,
            msgsFor_usm_true_other _ _ _ _ _ _ hne, h2]
      · rw [if_neg hstop, if_neg hstop]
        by_cases herr : dd.finishReason = some "error".data
        · rw [if_pos herr, if_pos herr]
          exact ⟨h1, h2, h3, rfl, h5, h6⟩
        · rw [if_neg herr, if_neg herr]
          exact ⟨h1, h2, h3, h4, h5, h6⟩

theorem aRel_foldl_lines (sid idA idB : String) (hne : idA ≠ idB)
    (lines : List (List Char)) :
    ∀ s1 s2 : CompareRun, aRel sid idA s1 s2 →
      aRel sid idA (lines.foldl (compareLineStep sid idA idB) s1)
        (lines.foldl (compareLineStep sid idA idB) s2) := by
  induction lines with
  | nil => intro s1 s2 h; exact h
  | cons l rest ih =>
    intro s1 s2 h
    rw [List.foldl_cons, List.foldl_cons]
    exact ih _ _ (aRel_lineStep sid idA idB hne s1 s2 h l)

theorem aRel_readStep (sid idA idB : String) (hne : idA ≠ idB)
    (s1 s2 : CompareRun) (h : aRel sid idA s1 s2) (frag : List Char) :
    aRel sid idA (compareReadStep sid idA idB s1 frag)
      (compareReadStep sid idA idB s2 frag) := by
  obtain ⟨h1, h2, h3, h4, h5, h6⟩ := h
  unfold compareReadStep
  by_cases hbr : s1.broke = true
  · have hbr2 : s2.broke = true := by
      rw [← h6]
      exact hbr
    rw [if_pos hbr, if_pos hbr2]
    exact ⟨h1, h2, h3, h4, h5, h6⟩
  · have hbr2 : ¬(s2.broke = true) := by
      rw [← h6]
      exact hbr
    rw [if_neg hbr, if_neg hbr2]
    dsimp only
    rw [h5]
    exact aRel_breakStep sid idA _ _
      (aRel_foldl_lines sid idA idB hne _ _ _ ⟨h1, h2, h3, h4, rfl, h6⟩)

theorem aRel_foldl_reads (sid idA idB : String) (hne : idA ≠ idB)
    (reads : List (List Char)) :
    ∀ s1 s2 : CompareRun, aRel sid idA s1 s2 →
      aRel sid idA (reads.foldl (compareReadStep sid idA idB) s1)
        (reads.foldl (compareReadStep sid idA idB) s2) := by
  induction reads with
  | nil => intro s1 s2 h; exact h
  | cons r rest ih =>
    intro s1 s2 h
    rw [List.foldl_cons, List.foldl_cons]
    exact ih _ _ (aRel_readStep sid idA idB hne s1 s2 h r)

theorem lineBuf_foldl_nl_reads (sid idA idB : String) (rs : List (List Char)) :
    ∀ s : CompareRun, s.lineBuf = [] →
      (List.foldl (compareReadStep sid idA idB) s
        (rs.map (fun l => l ++ ('\n' :: [])))).lineBuf = [] := by
  induction rs with
  | nil => intro s h; exact h
  | cons r rest ih =>
    intro s h
    simp only [List.map_cons, List.foldl_cons]
    apply ih
    unfold compareReadStep
    by_cases hbr : s.broke = true
    · rw [if_pos hbr]
      exact h
    · rw [if_neg hbr]
      dsimp only
      have hlast : ((splitNl (s.lineBuf ++ (r ++ ('\n' :: [])))).getLast?).getD []
          = ([] : List Char) := by
        rw [h, List.nil_append, splitNl_append_nl, List.getLast?_concat]
        rfl
      split
      · dsimp only
        rw [foldl_lineStep_lineBuf]
        exact hlast
      · rw [foldl_lineStep_lineBuf]
        exact hlast

theorem compareReadStep_single_line (sid idA idB : String) (s : CompareRun)
    (line : List Char) (hbr : s.broke = false) (hl : s.lineBuf = [])
    (hnl : ¬('\n' ∈ line)) :
    compareReadStep sid idA idB s (line ++ ('\n' :: [])) =
      (if (compareLineStep sid idA idB { s with lineBuf := [] } line).statusA.complete = true ∧
          (compareLineStep sid idA idB { s with lineBuf := [] } line).statusB.complete = true then
        { compareLineStep sid idA idB { s with lineBuf := [] } line with broke := true }
      else compareLineStep sid idA idB { s with lineBuf := [] } line) := by
  unfold compareReadStep
  rw [if_neg (by simp [hbr])]
  dsimp only
  rw [hl, List.nil_append, splitNl_append_nl, splitNl_no_nl line hnl]
  simp only [List.cons_append, List.nil_append]
  rw [show (line :: [] :: [] : List (List Char)).dropLast = (line :: []) from rfl,
      show (line :: [] :: [] : List (List Char)).getLast? = some ([] : List Char)
        from rfl]
  simp only [Option.getD_some, List.foldl_cons, List.foldl_nil]

theorem aView_eq_of_aRel (sid idA : String) (s1 s2 : CompareRun)
    (h : aRel sid idA s1 s2) : aView sid idA s1 = aView sid idA s2 := by
  obtain ⟨h1, h2, h3, _, _, _⟩ := h
  unfold aView
  rw [h1, h2, h3]

theorem c6_div_step (sid idA idB : String) (hne : idA ≠ idB) (s : CompareRun)
    (hl : s.lineBuf = []) (payE payS : List Char) (dE dS : DoneData)
    (hpe : jsonParseDone payE = some dE)
    (hfe : dE.finishReason = some "error".data)
    (hps : jsonParseDone payS = some dS)
    (hfs : dS.finishReason = some "stop".data)
    (hnE : ¬('\n' ∈ payE)) (hnS : ¬('\n' ∈ payS)) :
    aRel sid idA
      (compareReadStep sid idA idB s
        (('b' :: 'd' :: ':' :: payE) ++ ('\n' :: [])))
      (compareReadStep sid idA idB s
        (('b' :: 'd' :: ':' :: payS) ++ ('\n' :: []))) := by
  by_cases hbr : s.broke = true
  · unfold compareReadStep
    rw [if_pos hbr, if_pos hbr]
    exact aRel_refl sid idA s
  · have hbf : s.broke = false := by
      revert hbr
      cases s.broke <;> simp
    have hnlE : ¬('\n' ∈ ('b' :: 'd' :: ':' :: payE)) := by
      simp [hnE]
    have hnlS : ¬('\n' ∈ ('b' :: 'd' :: ':' :: payS)) := by
      simp [hnS]
    rw [compareReadStep_single_line sid idA idB s _ hbf hl hnlE,
        compareReadStep_single_line sid idA idB s _ hbf hl hnlS]
    have hsE : compareLineStep sid idA idB { s with lineBuf := [] }
        ('b' :: 'd' :: ':' :: payE) =
        { s with
            lineBuf := [],
            statusB := ⟨true, dE.error⟩,
            toasts := s.toasts ++ [toastModelError ('B' :: []) dE.error] } := by
      unfold compareLineStep
      rw [classifyLine_bd, hpe]
      simp only [applyCompareEv]
      rw [hfe, if_neg (by decide), if_pos rfl]
    have hsS : compareLineStep sid idA idB { s with lineBuf := [] }
        ('b' :: 'd' :: ':' :: payS) =
        { s with
            lineBuf := [],
            statusB := ⟨true, s.statusB.error⟩,
            chat := updateStreamingMessage s.chat ⟨sid, idB, [], true, "b"⟩ } := by
      unfold compareLineStep
      rw [classifyLine_bd, hps]
      simp only [applyCompareEv]
      rw [hfs, if_pos rfl]
    rw [hsE, hsS]
    apply aRel_breakStep
    refine ⟨?_, ?_, rfl, rfl, rfl, rfl⟩
    · dsimp only
      rw [getBuf_usm_true_other _ _ _ _ _ _ hne]
    · dsimp only
      rw [msgsFor_usm_true_other _ _ _ _ _ _ hne]

/-- C6: in compare mode, whether participant b's completion is an error
or a normal stop makes no difference to participant a: over any whole
run (arbitrary lines before and after the b-completion), a's open
buffer, a's finalized messages and a's local status are identical in the
two runs — b's error never touches a's state. -/
theorem c6_participant_isolation (sid uid idA idB : String) (hne : idA ≠ idB)
    (uc : List Char) (parents : List String) (st : ChatState)
    (front back : List (List Char)) (payE payS : List Char) (dE dS : DoneData)
    (hpe : jsonParseDone payE = some dE)
    (hfe : dE.finishReason = some "error".data)
    (hps : jsonParseDone payS = some dS)
    (hfs : dS.finishReason = some "stop".data)
    (hnE : ¬('\n' ∈ payE)) (hnS : ¬('\n' ∈ payS)) :
    aView sid idA (streamComparison sid uid idA idB uc parents st
      ((front ++ ('b' :: 'd' :: ':' :: payE) :: back).map
        (fun l => l ++ ('\n' :: [])))) =
    aView sid idA (streamComparison sid uid idA idB uc parents st
      ((front ++ ('b' :: 'd' :: ':' :: payS) :: back).map
        (fun l => l ++ ('\n' :: [])))) := by
  unfold streamComparison
  simp only [List.map_append, List.map_cons, List.foldl_append, List.foldl_cons]
  have hlb : (List.foldl (compareReadStep sid idA idB)
      (compareStart sid uid idA idB uc parents st)
      (front.map (fun l => l ++ ('\n' :: [])))).lineBuf = [] :=
    lineBuf_foldl_nl_reads sid idA idB front _ rfl
  exact aView_eq_of_aRel sid idA _ _
    (aRel_foldl_reads sid idA idB hne _ _ _
      (c6_div_step sid idA idB hne _ hlb payE payS dE dS hpe hfe hps hfs hnE hnS))

/-- C6 (witness): a two-chunk stream for participant a with b's
completion in the middle — as an error versus as a normal stop — yields
the same view of participant a. -/
theorem c6_participant_isolation_witness :
    aView "s" "ma" (streamComparison "s" "u" "ma" "mb" ('q' :: []) [] emptyChat
      ((("a0:\"H\"".data :: []) ++
        ('b' :: 'd' :: ':' ::
          "\x7b\"finishReason\":\"error\",\"error\":\"boom\"\x7d".data) ::
        ("a0:\"i\"".data :: [])).map (fun l => l ++ ('\n' :: [])))) =
    aView "s" "ma" (streamComparison "s" "u" "ma" "mb" ('q' :: []) [] emptyChat
      ((("a0:\"H\"".data :: []) ++
        ('b' :: 'd' :: ':' ::
          "\x7b\"finishReason\":\"stop\"\x7d".data) ::
        ("a0:\"i\"".data :: [])).map (fun l => l ++ ('\n' :: [])))) :=
  c6_participant_isolation "s" "u" "ma" "mb" (by decide) ('q' :: []) []
    emptyChat ("a0:\"H\"".data :: []) ("a0:\"i\"".data :: [])
    "\x7b\"finishReason\":\"error\",\"error\":\"boom\"\x7d".data
    "\x7b\"finishReason\":\"stop\"\x7d".data
    ⟨some "error".data, some "boom".data⟩ ⟨some "stop".data, none⟩
    (by decide) rfl (by decide) rfl (by decide) (by decide)
